import Mathlib

open Matrix

/-!
# Verification of the software-rasterizer spec against `src/3d_d/src/main.rs`

The repository is a small CPU rendering pipeline (matrix composition, vertex
transform, triangle rasterization with barycentric depth interpolation,
procedural shading, framebuffer writes).  `main.rs` is the only source file
present; the helper modules it declares (`matrix`, `triangle`, `framebuffer`,
`shaders`, `vertex`) and the external raylib matrix algebra are modelled from
the specification where noted.
-/

/-- A 3-component vector, standing in for raylib's `Vector3`
(`f32` components are embedded as exact scalars). -/
structure Vec3 (α : Type) where
  x : α
  y : α
  z : α
deriving DecidableEq, Repr

/-- A 4x4 matrix, standing in for raylib's `Matrix`. -/
abbrev Matrix4 (α : Type) := Matrix (Fin 4) (Fin 4) α

/-- Modelled from the spec (the repository's `src/matrix.rs` is not in `src/`):
`new_matrix4` builds a 4x4 matrix from 16 scalars given row-major, so the
four arguments of each source line form one row of the affine matrix
(translation components land in the fourth column). -/
def new_matrix4 {α : Type} (a0 a1 a2 a3 a4 a5 a6 a7 a8 a9 a10 a11 a12 a13 a14 a15 : α) :
    Matrix4 α :=
  !![a0, a1, a2, a3; a4, a5, a6, a7; a8, a9, a10, a11; a12, a13, a14, a15]

/-- Modelled from the spec (raylib's `Matrix` multiplication is an external
collaborator): raylib's `MatrixMultiply(left, right)` composes "left applied
first, then right", i.e. it returns the standard matrix product
`right * left`.  This is the `*` used by `create_model_matrix`, and it is the
convention under which the spec's `Scale × Rotation × Translation` means
"scale applied first to local coordinates, then rotation, then translation". -/
def rlMul {α : Type} [CommRing α] (left right : Matrix4 α) : Matrix4 α :=
  right * left

/-- The elementary X-rotation matrix built in `create_model_matrix`
(main.rs lines 30-32).  The source computes `(sin_x, cos_x) = rotation.x.sin_cos()`;
the embedding takes the sine and cosine values as parameters. -/
def rotation_matrix_x {α : Type} [CommRing α] (sin_x cos_x : α) : Matrix4 α :=
  new_matrix4 1 0 0 0 0 cos_x (-sin_x) 0 0 sin_x cos_x 0 0 0 0 1

/-- The elementary Y-rotation matrix built in `create_model_matrix`
(main.rs lines 34-36). -/
def rotation_matrix_y {α : Type} [CommRing α] (sin_y cos_y : α) : Matrix4 α :=
  new_matrix4 cos_y 0 sin_y 0 0 1 0 0 (-sin_y) 0 cos_y 0 0 0 0 1

/-- The elementary Z-rotation matrix built in `create_model_matrix`
(main.rs lines 38-40). -/
def rotation_matrix_z {α : Type} [CommRing α] (sin_z cos_z : α) : Matrix4 α :=
  new_matrix4 cos_z (-sin_z) 0 0 sin_z cos_z 0 0 0 0 1 0 0 0 0 1

/-- The combined rotation `rotation_matrix_z * rotation_matrix_y * rotation_matrix_x`
of main.rs line 42, with `*` the raylib multiplication `rlMul`. -/
def rotation_matrix {α : Type} [CommRing α] (sin_x cos_x sin_y cos_y sin_z cos_z : α) :
    Matrix4 α :=
  rlMul (rlMul (rotation_matrix_z sin_z cos_z) (rotation_matrix_y sin_y cos_y))
    (rotation_matrix_x sin_x cos_x)

/-- The uniform scale matrix of main.rs lines 43-45. -/
def scale_matrix {α : Type} [CommRing α] (scale : α) : Matrix4 α :=
  new_matrix4 scale 0 0 0 0 scale 0 0 0 0 scale 0 0 0 0 1

/-- The translation matrix of main.rs lines 47-64. -/
def translation_matrix {α : Type} [CommRing α] (translation : Vec3 α) : Matrix4 α :=
  new_matrix4 1 0 0 translation.x 0 1 0 translation.y 0 0 1 translation.z 0 0 0 1

/-- `create_model_matrix` (main.rs lines 25-67): the source signature is
`(translation: Vector3, scale: f32, rotation: Vector3)`; the embedding receives
the `sin_cos` results of the three rotation angles as parameters.  The result
is `scale_matrix * rotation_matrix * translation_matrix` under raylib
multiplication (main.rs line 66). -/
def create_model_matrix {α : Type} [CommRing α] (translation : Vec3 α) (scale : α)
    (sin_x cos_x sin_y cos_y sin_z cos_z : α) : Matrix4 α :=
  rlMul (rlMul (scale_matrix scale) (rotation_matrix sin_x cos_x sin_y cos_y sin_z cos_z))
    (translation_matrix translation)

/-- Modelled from the spec (the repository's `src/shaders.rs::vertex_shader` is
not in `src/`): the vertex stage applies the model matrix to the position via
homogeneous multiplication with implicit `w = 1`, no perspective division. -/
def transform_point {α : Type} [CommRing α] (m : Matrix4 α) (p : Vec3 α) : Vec3 α :=
  let v := m.mulVec ![p.x, p.y, p.z, 1]
  ⟨v 0, v 1, v 2⟩

/-- Modelled from the spec: the standard right-handed elementary rotation about
the X axis, embedded homogeneously, expressed with the angle's sine and cosine. -/
def spec_rotation_x {α : Type} [CommRing α] (s c : α) : Matrix4 α :=
  !![1, 0, 0, 0; 0, c, -s, 0; 0, s, c, 0; 0, 0, 0, 1]

/-- Modelled from the spec: the standard right-handed elementary rotation about
the Y axis. -/
def spec_rotation_y {α : Type} [CommRing α] (s c : α) : Matrix4 α :=
  !![c, 0, s, 0; 0, 1, 0, 0; -s, 0, c, 0; 0, 0, 0, 1]

/-- Modelled from the spec: the standard right-handed elementary rotation about
the Z axis. -/
def spec_rotation_z {α : Type} [CommRing α] (s c : α) : Matrix4 α :=
  !![c, -s, 0, 0; s, c, 0, 0; 0, 0, 1, 0; 0, 0, 0, 1]

/-- Modelled from the spec: the uniform scaling matrix by `s`. -/
def spec_scale {α : Type} [CommRing α] (s : α) : Matrix4 α :=
  !![s, 0, 0, 0; 0, s, 0, 0; 0, 0, s, 0; 0, 0, 0, 1]

/-- Modelled from the spec: the affine translation by `t` (column-vector
convention, translation in the fourth column). -/
def spec_translation {α : Type} [CommRing α] (t : Vec3 α) : Matrix4 α :=
  !![1, 0, 0, t.x; 0, 1, 0, t.y; 0, 0, 1, t.z; 0, 0, 0, 1]

/-- Helper: with zero rotation (sine 0, cosine 1) the model matrix acts on a
point as uniform scale followed by translation. -/
theorem transform_zero_rot {α : Type} [CommRing α] (t p : Vec3 α) (s : α) :
    transform_point (create_model_matrix t s 0 1 0 1 0 1) p =
      ⟨s * p.x + t.x, s * p.y + t.y, s * p.z + t.z⟩ := by
  simp [transform_point, create_model_matrix, rotation_matrix, rlMul,
    rotation_matrix_x, rotation_matrix_y, rotation_matrix_z, scale_matrix,
    translation_matrix, new_matrix4, Matrix.mulVec, Matrix.mul_apply,
    Matrix.dotProduct, Fin.sum_univ_four]


/-- The 3x3 linear block of a homogeneous 4x4 matrix. -/
def linear_block {α : Type} (m : Matrix4 α) : Matrix (Fin 3) (Fin 3) α :=
  m.submatrix Fin.castSucc Fin.castSucc

/-- Helper: the linear block of an explicit 4x4 matrix literal. -/
theorem linear_block_lit {α : Type}
    (a0 a1 a2 a3 b0 b1 b2 b3 c0 c1 c2 c3 d0 d1 d2 d3 : α) :
    linear_block !![a0, a1, a2, a3; b0, b1, b2, b3; c0, c1, c2, c3; d0, d1, d2, d3] =
      !![a0, a1, a2; b0, b1, b2; c0, c1, c2] := by
  ext i j
  fin_cases i <;> fin_cases j <;> rfl

/-- Helper: the combined rotation matrix written out entrywise (standard
product form `Rx * (Ry * Rz)`, which raylib order makes of line 42). -/
theorem rotation_matrix_eq {α : Type} [CommRing α] (sx cx sy cy sz cz : α) :
    rotation_matrix sx cx sy cy sz cz =
      !![cy * cz, -(cy * sz), sy, 0;
         cx * sz + sx * sy * cz, cx * cz - sx * sy * sz, -(sx * cy), 0;
         sx * sz - cx * sy * cz, sx * cz + cx * sy * sz, cx * cy, 0;
         0, 0, 0, 1] := by
  unfold rotation_matrix rlMul rotation_matrix_x rotation_matrix_y rotation_matrix_z new_matrix4
  ext i j
  fin_cases i <;> fin_cases j <;>
    simp [Matrix.mul_apply, Fin.sum_univ_four] <;> ring

/-- Helper: the linear block of the elementary X rotation. -/
theorem linear_block_x {α : Type} [CommRing α] (s c : α) :
    linear_block (rotation_matrix_x s c) = !![1, 0, 0; 0, c, -s; 0, s, c] :=
  linear_block_lit 1 0 0 0 0 c (-s) 0 0 s c 0 0 0 0 1

/-- Helper: the linear block of the elementary Y rotation. -/
theorem linear_block_y {α : Type} [CommRing α] (s c : α) :
    linear_block (rotation_matrix_y s c) = !![c, 0, s; 0, 1, 0; -s, 0, c] :=
  linear_block_lit c 0 s 0 0 1 0 0 (-s) 0 c 0 0 0 0 1

/-- Helper: the linear block of the elementary Z rotation. -/
theorem linear_block_z {α : Type} [CommRing α] (s c : α) :
    linear_block (rotation_matrix_z s c) = !![c, -s, 0; s, c, 0; 0, 0, 1] :=
  linear_block_lit c (-s) 0 0 s c 0 0 0 0 1 0 0 0 0 1

/-- Helper: the combined rotation's linear block factors through the linear
blocks of the elementary rotations (raylib order: Z applied first). -/
theorem linear_block_rotation {α : Type} [CommRing α] (sx cx sy cy sz cz : α) :
    linear_block (rotation_matrix sx cx sy cy sz cz) =
      linear_block (rotation_matrix_x sx cx) *
        (linear_block (rotation_matrix_y sy cy) * linear_block (rotation_matrix_z sz cz)) := by
  rw [rotation_matrix_eq, linear_block_x, linear_block_y, linear_block_z]
  have h4 := linear_block_lit (cy * cz) (-(cy * sz)) sy (0 : α)
    (cx * sz + sx * sy * cz) (cx * cz - sx * sy * sz) (-(sx * cy)) 0
    (sx * sz - cx * sy * cz) (sx * cz + cx * sy * sz) (cx * cy) 0 0 0 0 1
  rw [h4]
  ext i j
  fin_cases i <;> fin_cases j <;>
    simp [Matrix.mul_apply, Fin.sum_univ_three] <;> ring

/-- Helper: orthonormality of the X-rotation linear block. -/
theorem block_x_orthonormal {α : Type} [CommRing α] (s c : α) (h : s ^ 2 + c ^ 2 = 1) :
    (linear_block (rotation_matrix_x s c))ᵀ * linear_block (rotation_matrix_x s c) = 1 ∧
      (linear_block (rotation_matrix_x s c)).det = 1 := by
  rw [linear_block_x]
  constructor
  · have ht : (!![1, 0, 0; 0, c, -s; 0, s, c] : Matrix (Fin 3) (Fin 3) α).transpose
        = !![1, 0, 0; 0, c, s; 0, -s, c] := by
      ext i j
      fin_cases i <;> fin_cases j <;> rfl
    rw [ht]
    ext i j
    fin_cases i <;> fin_cases j <;>
      simp [Matrix.mul_apply, Fin.sum_univ_three, Matrix.one_apply,
          Matrix.vecHead, Matrix.vecTail] <;>
        first
          | ring1
          | linear_combination h
  · rw [Matrix.det_fin_three]
    simp
    linear_combination h

/-- Helper: orthonormality of the Y-rotation linear block. -/
theorem block_y_orthonormal {α : Type} [CommRing α] (s c : α) (h : s ^ 2 + c ^ 2 = 1) :
    (linear_block (rotation_matrix_y s c))ᵀ * linear_block (rotation_matrix_y s c) = 1 ∧
      (linear_block (rotation_matrix_y s c)).det = 1 := by
  rw [linear_block_y]
  constructor
  · have ht : (!![c, 0, s; 0, 1, 0; -s, 0, c] : Matrix (Fin 3) (Fin 3) α).transpose
        = !![c, 0, -s; 0, 1, 0; s, 0, c] := by
      ext i j
      fin_cases i <;> fin_cases j <;> rfl
    rw [ht]
    ext i j
    fin_cases i <;> fin_cases j <;>
      simp [Matrix.mul_apply, Fin.sum_univ_three, Matrix.one_apply,
          Matrix.vecHead, Matrix.vecTail] <;>
        first
          | ring1
          | linear_combination h
  · rw [Matrix.det_fin_three]
    simp
    linear_combination h

/-- Helper: orthonormality of the Z-rotation linear block. -/
theorem block_z_orthonormal {α : Type} [CommRing α] (s c : α) (h : s ^ 2 + c ^ 2 = 1) :
    (linear_block (rotation_matrix_z s c))ᵀ * linear_block (rotation_matrix_z s c) = 1 ∧
      (linear_block (rotation_matrix_z s c)).det = 1 := by
  rw [linear_block_z]
  constructor
  · have ht : (!![c, -s, 0; s, c, 0; 0, 0, 1] : Matrix (Fin 3) (Fin 3) α).transpose
        = !![c, s, 0; -s, c, 0; 0, 0, 1] := by
      ext i j
      fin_cases i <;> fin_cases j <;> rfl
    rw [ht]
    ext i j
    fin_cases i <;> fin_cases j <;>
      simp [Matrix.mul_apply, Fin.sum_univ_three, Matrix.one_apply,
          Matrix.vecHead, Matrix.vecTail] <;>
        first
          | ring1
          | linear_combination h
  · rw [Matrix.det_fin_three]
    simp
    linear_combination h

/-- Helper: the combined rotation's linear block is orthonormal with
determinant one whenever each (sine, cosine) pair satisfies the Pythagorean
identity. -/
theorem rotation_block_orthonormal {α : Type} [CommRing α]
    (sx cx sy cy sz cz : α) (hx : sx ^ 2 + cx ^ 2 = 1) (hy : sy ^ 2 + cy ^ 2 = 1)
    (hz : sz ^ 2 + cz ^ 2 = 1) :
    (linear_block (rotation_matrix sx cx sy cy sz cz))ᵀ *
        linear_block (rotation_matrix sx cx sy cy sz cz) = 1 ∧
      (linear_block (rotation_matrix sx cx sy cy sz cz)).det = 1 := by
  rw [linear_block_rotation]
  obtain ⟨hx1, hx2⟩ := block_x_orthonormal sx cx hx
  obtain ⟨hy1, hy2⟩ := block_y_orthonormal sy cy hy
  obtain ⟨hz1, hz2⟩ := block_z_orthonormal sz cz hz
  set X := linear_block (rotation_matrix_x sx cx)
  set Y := linear_block (rotation_matrix_y sy cy)
  set Z := linear_block (rotation_matrix_z sz cz)
  constructor
  · have e1 : (X * (Y * Z))ᵀ * (X * (Y * Z)) = (Y * Z)ᵀ * ((Xᵀ * X) * (Y * Z)) := by
      rw [Matrix.transpose_mul]
      noncomm_ring
    rw [e1, hx1, Matrix.one_mul, Matrix.transpose_mul]
    have e2 : Zᵀ * Yᵀ * (Y * Z) = Zᵀ * ((Yᵀ * Y) * Z) := by noncomm_ring
    rw [e2, hy1, Matrix.one_mul]
    exact hz1
  · rw [Matrix.det_mul, Matrix.det_mul, hx2, hy2, hz2]
    ring

/-- Claim C1: for every translation vector, uniform scale and Euler rotation
angles, `create_model_matrix` returns exactly the composite
`Scale × (RotZ × RotY × RotX) × Translation` of the standard elementary scale,
rotation and translation matrices, where `×` is the system's (raylib)
matrix multiplication; equivalently, in standard matrix-product notation, it
returns `Translation * (RotX * (RotY * RotZ)) * Scale`. -/
theorem claim_C1_create_model_matrix (t : Vec3 ℝ) (s rx ry rz : ℝ) :
    create_model_matrix t s (Real.sin rx) (Real.cos rx) (Real.sin ry) (Real.cos ry)
        (Real.sin rz) (Real.cos rz) =
      rlMul (rlMul (spec_scale s)
          (rlMul (rlMul (spec_rotation_z (Real.sin rz) (Real.cos rz))
              (spec_rotation_y (Real.sin ry) (Real.cos ry)))
            (spec_rotation_x (Real.sin rx) (Real.cos rx))))
        (spec_translation t) ∧
    create_model_matrix t s (Real.sin rx) (Real.cos rx) (Real.sin ry) (Real.cos ry)
        (Real.sin rz) (Real.cos rz) =
      spec_translation t *
        (spec_rotation_x (Real.sin rx) (Real.cos rx) *
          (spec_rotation_y (Real.sin ry) (Real.cos ry) *
            spec_rotation_z (Real.sin rz) (Real.cos rz))) *
        spec_scale s := by
  constructor
  · rfl
  · simp [create_model_matrix, rotation_matrix, rlMul, scale_matrix, translation_matrix,
      rotation_matrix_x, rotation_matrix_y, rotation_matrix_z, spec_scale, spec_translation,
      spec_rotation_x, spec_rotation_y, spec_rotation_z, new_matrix4, Matrix.mul_assoc]

/-- Claim C2: with all rotation angles zero, the model matrix applied as a
homogeneous transform (w = 1) sends any point p to s·p + T, and in
particular sends the origin to the translation T. -/
theorem claim_C2_zero_rotation_transform (t p : Vec3 ℝ) (s : ℝ) :
    transform_point (create_model_matrix t s (Real.sin 0) (Real.cos 0) (Real.sin 0) (Real.cos 0)
        (Real.sin 0) (Real.cos 0)) p =
      ⟨s * p.x + t.x, s * p.y + t.y, s * p.z + t.z⟩ ∧
    transform_point (create_model_matrix t s (Real.sin 0) (Real.cos 0) (Real.sin 0) (Real.cos 0)
        (Real.sin 0) (Real.cos 0)) ⟨0, 0, 0⟩ = t := by
  rw [Real.sin_zero, Real.cos_zero]
  refine ⟨transform_zero_rot t p s, ?_⟩
  obtain ⟨tx, ty, tz⟩ := t
  rw [transform_zero_rot]
  simp

/-- Claim C9: for every rotation angle triple, the 3x3 linear block of the
combined rotation matrix RotZ × RotY × RotX built by `create_model_matrix`
is orthonormal and has determinant 1. -/
theorem claim_C9_rotation_orthonormal (rx ry rz : ℝ) :
    (linear_block (rotation_matrix (Real.sin rx) (Real.cos rx) (Real.sin ry) (Real.cos ry)
          (Real.sin rz) (Real.cos rz)))ᵀ *
        linear_block (rotation_matrix (Real.sin rx) (Real.cos rx) (Real.sin ry) (Real.cos ry)
          (Real.sin rz) (Real.cos rz)) = 1 ∧
      (linear_block (rotation_matrix (Real.sin rx) (Real.cos rx) (Real.sin ry) (Real.cos ry)
          (Real.sin rz) (Real.cos rz))).det = 1 :=
  rotation_block_orthonormal _ _ _ _ _ _ (Real.sin_sq_add_cos_sq rx)
    (Real.sin_sq_add_cos_sq ry) (Real.sin_sq_add_cos_sq rz)

/-- A rasterizer fragment: an integer pixel position plus interpolated depth
(the `Fragment` of the repository's `src/fragment.rs`, position and depth
fields as consumed in main.rs lines 86-88). -/
structure Fragment where
  x : ℤ
  y : ℤ
  depth : ℚ
deriving DecidableEq, Repr

/-- Modelled from the spec (the repository's `src/triangle.rs` is not in
`src/`): the signed edge function of the directed edge a→b evaluated at the
point (px, py); positive on the left of the edge. -/
def edge_fn (a b : Vec3 ℚ) (px py : ℚ) : ℚ :=
  (b.x - a.x) * (py - a.y) - (b.y - a.y) * (px - a.x)

/-- Modelled from the spec: twice the signed area of a triangle; zero exactly
for degenerate (collinear) triangles. -/
def signed_area2 (v0 v1 v2 : Vec3 ℚ) : ℚ :=
  edge_fn v0 v1 v2.x v2.y

/-- Modelled from the spec: the barycentric coordinates (α, β, γ) of the
point (px, py) with respect to the triangle v0 v1 v2. -/
def bary (v0 v1 v2 : Vec3 ℚ) (px py : ℚ) : ℚ × ℚ × ℚ :=
  (edge_fn v1 v2 px py / signed_area2 v0 v1 v2,
   edge_fn v2 v0 px py / signed_area2 v0 v1 v2,
   edge_fn v0 v1 px py / signed_area2 v0 v1 v2)

/-- Modelled from the spec: the barycentric-weighted depth interpolation
`α·z0 + β·z1 + γ·z2` at a point. -/
def depth_at (v0 v1 v2 : Vec3 ℚ) (px py : ℚ) : ℚ :=
  (bary v0 v1 v2 px py).1 * v0.z + (bary v0 v1 v2 px py).2.1 * v1.z +
    (bary v0 v1 v2 px py).2.2 * v2.z

/-- Left end of the bounding box pixel range in x (ceiling of the minimum). -/
def raster_xlo (v0 v1 v2 : Vec3 ℚ) : ℤ := ⌈min v0.x (min v1.x v2.x)⌉

/-- Right end of the bounding box pixel range in x (floor of the maximum). -/
def raster_xhi (v0 v1 v2 : Vec3 ℚ) : ℤ := ⌊max v0.x (max v1.x v2.x)⌋

/-- Bottom end of the bounding box pixel range in y. -/
def raster_ylo (v0 v1 v2 : Vec3 ℚ) : ℤ := ⌈min v0.y (min v1.y v2.y)⌉

/-- Top end of the bounding box pixel range in y. -/
def raster_yhi (v0 v1 v2 : Vec3 ℚ) : ℤ := ⌊max v0.y (max v1.y v2.y)⌋

/-- The list of integers from lo to hi inclusive. -/
def int_range (lo hi : ℤ) : List ℤ :=
  (List.range (hi + 1 - lo).toNat).map (fun (i : ℕ) => lo + (i : ℤ))

/-- Modelled from the spec (the repository's `src/triangle.rs` is not in
`src/`): the `triangle` rasterizer.  For each integer pixel of the bounding
box of the three projected vertices (row-major scan order), the pixel yields
a fragment iff all three barycentric coordinates are at least 0, with depth
`α·z0 + β·z1 + γ·z2`; degenerate triangles yield no fragments. -/
def rasterize (v0 v1 v2 : Vec3 ℚ) : List Fragment :=
  if signed_area2 v0 v1 v2 = 0 then []
  else
    (int_range (raster_ylo v0 v1 v2) (raster_yhi v0 v1 v2)).flatMap fun (y : ℤ) =>
      (int_range (raster_xlo v0 v1 v2) (raster_xhi v0 v1 v2)).filterMap fun (x : ℤ) =>
        if 0 ≤ (bary v0 v1 v2 (x : ℚ) (y : ℚ)).1 ∧ 0 ≤ (bary v0 v1 v2 (x : ℚ) (y : ℚ)).2.1 ∧
            0 ≤ (bary v0 v1 v2 (x : ℚ) (y : ℚ)).2.2 then
          some ⟨x, y, depth_at v0 v1 v2 (x : ℚ) (y : ℚ)⟩
        else none

/-- Helper: membership in an inclusive integer range list. -/
theorem mem_int_range {lo hi n : ℤ} : n ∈ int_range lo hi ↔ lo ≤ n ∧ n ≤ hi := by
  simp only [int_range, List.mem_map, List.mem_range]
  constructor
  · rintro ⟨i, hi', rfl⟩
    have := Int.lt_toNat.mp hi'
    omega
  · rintro ⟨h1, h2⟩
    refine ⟨(n - lo).toNat, ?_, ?_⟩
    · rw [Int.lt_toNat]
      omega
    · omega

/-- Helper: explicit characterization of membership in the fragment list. -/
theorem mem_rasterize {v0 v1 v2 : Vec3 ℚ} {f : Fragment} :
    f ∈ rasterize v0 v1 v2 ↔
      signed_area2 v0 v1 v2 ≠ 0 ∧
      raster_ylo v0 v1 v2 ≤ f.y ∧ f.y ≤ raster_yhi v0 v1 v2 ∧
      raster_xlo v0 v1 v2 ≤ f.x ∧ f.x ≤ raster_xhi v0 v1 v2 ∧
      0 ≤ (bary v0 v1 v2 f.x f.y).1 ∧ 0 ≤ (bary v0 v1 v2 f.x f.y).2.1 ∧
      0 ≤ (bary v0 v1 v2 f.x f.y).2.2 ∧
      f.depth = depth_at v0 v1 v2 f.x f.y := by
  obtain ⟨fx, fy, fd⟩ := f
  unfold rasterize
  split_ifs with ha
  · simp [ha]
  · simp only [List.mem_flatMap, List.mem_filterMap, mem_int_range,
      Option.ite_none_right_eq_some, Option.some.injEq]
    constructor
    · rintro ⟨y, ⟨hy1, hy2⟩, x, ⟨hx1, hx2⟩, ⟨hc1, hc2, hc3⟩, heq⟩
      injection heq with e1 e2 e3
      subst e1
      subst e2
      subst e3
      exact ⟨ha, hy1, hy2, hx1, hx2, hc1, hc2, hc3, rfl⟩
    · rintro ⟨-, hy1, hy2, hx1, hx2, hc1, hc2, hc3, rfl⟩
      exact ⟨fy, ⟨hy1, hy2⟩, fx, ⟨hx1, hx2⟩, ⟨hc1, hc2, hc3⟩, rfl⟩

/-- Helper: the three barycentric coordinates sum to 1 for a non-degenerate
triangle. -/
theorem bary_sum {v0 v1 v2 : Vec3 ℚ} (h : signed_area2 v0 v1 v2 ≠ 0) (px py : ℚ) :
    (bary v0 v1 v2 px py).1 + (bary v0 v1 v2 px py).2.1 + (bary v0 v1 v2 px py).2.2 = 1 := by
  simp only [bary]
  rw [div_add_div_same, div_add_div_same, div_eq_one_iff_eq h]
  simp only [edge_fn, signed_area2]
  ring

/-- Helper: the barycentric coordinates reconstruct the point's x coordinate. -/
theorem bary_wx {v0 v1 v2 : Vec3 ℚ} (h : signed_area2 v0 v1 v2 ≠ 0) (px py : ℚ) :
    (bary v0 v1 v2 px py).1 * v0.x + (bary v0 v1 v2 px py).2.1 * v1.x +
      (bary v0 v1 v2 px py).2.2 * v2.x = px := by
  simp only [bary]
  rw [div_mul_eq_mul_div, div_mul_eq_mul_div, div_mul_eq_mul_div, div_add_div_same,
    div_add_div_same, div_eq_iff h]
  simp only [edge_fn, signed_area2]
  ring

/-- Helper: the barycentric coordinates reconstruct the point's y coordinate. -/
theorem bary_wy {v0 v1 v2 : Vec3 ℚ} (h : signed_area2 v0 v1 v2 ≠ 0) (px py : ℚ) :
    (bary v0 v1 v2 px py).1 * v0.y + (bary v0 v1 v2 px py).2.1 * v1.y +
      (bary v0 v1 v2 px py).2.2 * v2.y = py := by
  simp only [bary]
  rw [div_mul_eq_mul_div, div_mul_eq_mul_div, div_mul_eq_mul_div, div_add_div_same,
    div_add_div_same, div_eq_iff h]
  simp only [edge_fn, signed_area2]
  ring

/-- Helper: a convex combination of three scalars lies between their minimum
and maximum. -/
theorem convex_combo_bounds {w0 w1 w2 x0 x1 x2 p : ℚ} (h0 : 0 ≤ w0) (h1 : 0 ≤ w1)
    (h2 : 0 ≤ w2) (hs : w0 + w1 + w2 = 1) (hp : w0 * x0 + w1 * x1 + w2 * x2 = p) :
    min x0 (min x1 x2) ≤ p ∧ p ≤ max x0 (max x1 x2) := by
  have b0 : min x0 (min x1 x2) ≤ x0 := min_le_left _ _
  have b1 : min x0 (min x1 x2) ≤ x1 := le_trans (min_le_right _ _) (min_le_left _ _)
  have b2 : min x0 (min x1 x2) ≤ x2 := le_trans (min_le_right _ _) (min_le_right _ _)
  have a0 : x0 ≤ max x0 (max x1 x2) := le_max_left _ _
  have a1 : x1 ≤ max x0 (max x1 x2) := le_trans (le_max_left _ _) (le_max_right _ _)
  have a2 : x2 ≤ max x0 (max x1 x2) := le_trans (le_max_right _ _) (le_max_right _ _)
  constructor
  · have p0 : w0 * min x0 (min x1 x2) ≤ w0 * x0 := mul_le_mul_of_nonneg_left b0 h0
    have p1 : w1 * min x0 (min x1 x2) ≤ w1 * x1 := mul_le_mul_of_nonneg_left b1 h1
    have p2 : w2 * min x0 (min x1 x2) ≤ w2 * x2 := mul_le_mul_of_nonneg_left b2 h2
    have hm : w0 * min x0 (min x1 x2) + w1 * min x0 (min x1 x2) + w2 * min x0 (min x1 x2)
        = min x0 (min x1 x2) := by linear_combination min x0 (min x1 x2) * hs
    linarith
  · have p0 : w0 * x0 ≤ w0 * max x0 (max x1 x2) := mul_le_mul_of_nonneg_left a0 h0
    have p1 : w1 * x1 ≤ w1 * max x0 (max x1 x2) := mul_le_mul_of_nonneg_left a1 h1
    have p2 : w2 * x2 ≤ w2 * max x0 (max x1 x2) := mul_le_mul_of_nonneg_left a2 h2
    have hm : w0 * max x0 (max x1 x2) + w1 * max x0 (max x1 x2) + w2 * max x0 (max x1 x2)
        = max x0 (max x1 x2) := by linear_combination max x0 (max x1 x2) * hs
    linarith

/-- Helper: an integer pixel yields a fragment iff all three barycentric
coordinates are nonnegative (the inclusive coverage rule). -/
theorem rasterize_covered_iff (v0 v1 v2 : Vec3 ℚ) (px py : ℤ)
    (ha : signed_area2 v0 v1 v2 ≠ 0) :
    (∃ f ∈ rasterize v0 v1 v2, f.x = px ∧ f.y = py) ↔
      0 ≤ (bary v0 v1 v2 px py).1 ∧ 0 ≤ (bary v0 v1 v2 px py).2.1 ∧
        0 ≤ (bary v0 v1 v2 px py).2.2 := by
  constructor
  · rintro ⟨f, hf, hfx, hfy⟩
    rw [mem_rasterize] at hf
    subst hfx
    subst hfy
    exact ⟨hf.2.2.2.2.2.1, hf.2.2.2.2.2.2.1, hf.2.2.2.2.2.2.2.1⟩
  · rintro ⟨hc1, hc2, hc3⟩
    refine ⟨⟨px, py, depth_at v0 v1 v2 px py⟩, ?_, rfl, rfl⟩
    rw [mem_rasterize]
    have hsum := bary_sum ha (px : ℚ) (py : ℚ)
    have hwx := bary_wx ha (px : ℚ) (py : ℚ)
    have hwy := bary_wy ha (px : ℚ) (py : ℚ)
    have hbx := convex_combo_bounds hc1 hc2 hc3 hsum hwx
    have hby := convex_combo_bounds hc1 hc2 hc3 hsum hwy
    exact ⟨ha, Int.ceil_le.mpr hby.1, Int.le_floor.mpr hby.2,
      Int.ceil_le.mpr hbx.1, Int.le_floor.mpr hbx.2, hc1, hc2, hc3, rfl⟩

/-- Claim C3: an integer pixel yields a fragment iff all three barycentric
coordinates of that pixel with respect to the triangle are at least 0
(inclusive edge rule); in particular, for the triangle (0,0,0),(4,0,0),(0,4,0)
the fragment set is exactly the lattice points of the half-planes
x ≥ 0, y ≥ 0, x + y ≤ 4. -/
theorem claim_C3_rasterizer_coverage :
    (∀ v0 v1 v2 : Vec3 ℚ, ∀ px py : ℤ, signed_area2 v0 v1 v2 ≠ 0 →
      ((∃ f ∈ rasterize v0 v1 v2, f.x = px ∧ f.y = py) ↔
        0 ≤ (bary v0 v1 v2 px py).1 ∧ 0 ≤ (bary v0 v1 v2 px py).2.1 ∧
          0 ≤ (bary v0 v1 v2 px py).2.2)) ∧
    (∀ px py : ℤ,
      (∃ f ∈ rasterize ⟨0, 0, 0⟩ ⟨4, 0, 0⟩ ⟨0, 4, 0⟩, f.x = px ∧ f.y = py) ↔
        0 ≤ px ∧ 0 ≤ py ∧ px + py ≤ 4) := by
  refine ⟨fun v0 v1 v2 px py ha => rasterize_covered_iff v0 v1 v2 px py ha, fun px py => ?_⟩
  rw [rasterize_covered_iff _ _ _ px py (by norm_num [signed_area2, edge_fn])]
  simp only [bary, edge_fn, signed_area2]
  norm_num
  have h16 : (0 : ℚ) < 16 := by norm_num
  constructor
  · rintro ⟨h1, h2, h3⟩
    rw [le_div_iff₀ h16] at h1 h2 h3
    refine ⟨?_, ?_, ?_⟩
    · have : (0 : ℚ) ≤ (px : ℚ) := by linarith
      exact_mod_cast this
    · have : (0 : ℚ) ≤ (py : ℚ) := by linarith
      exact_mod_cast this
    · have : (px : ℚ) + (py : ℚ) ≤ 4 := by linarith
      exact_mod_cast this
  · rintro ⟨h1, h2, h3⟩
    have c1 : (0 : ℚ) ≤ (px : ℚ) := by exact_mod_cast h1
    have c2 : (0 : ℚ) ≤ (py : ℚ) := by exact_mod_cast h2
    have c3 : (px : ℚ) + (py : ℚ) ≤ 4 := by exact_mod_cast h3
    refine ⟨?_, ?_, ?_⟩ <;> rw [le_div_iff₀ h16] <;> linarith

/-- Witness for C3: the coverage rule instantiated at the concrete triangle
(0,0,0),(4,0,0),(0,4,0) and pixel (1,1). -/
theorem claim_C3_rasterizer_coverage_witness :
    signed_area2 (⟨0, 0, 0⟩ : Vec3 ℚ) ⟨4, 0, 0⟩ ⟨0, 4, 0⟩ ≠ 0 ∧
    ((∃ f ∈ rasterize (⟨0, 0, 0⟩ : Vec3 ℚ) ⟨4, 0, 0⟩ ⟨0, 4, 0⟩,
        f.x = (1 : ℤ) ∧ f.y = (1 : ℤ)) ↔
      0 ≤ (bary (⟨0, 0, 0⟩ : Vec3 ℚ) ⟨4, 0, 0⟩ ⟨0, 4, 0⟩ ((1 : ℤ) : ℚ) ((1 : ℤ) : ℚ)).1 ∧
        0 ≤ (bary (⟨0, 0, 0⟩ : Vec3 ℚ) ⟨4, 0, 0⟩ ⟨0, 4, 0⟩ ((1 : ℤ) : ℚ) ((1 : ℤ) : ℚ)).2.1 ∧
        0 ≤ (bary (⟨0, 0, 0⟩ : Vec3 ℚ) ⟨4, 0, 0⟩ ⟨0, 4, 0⟩ ((1 : ℤ) : ℚ) ((1 : ℤ) : ℚ)).2.2) :=
  ⟨by norm_num [signed_area2, edge_fn],
    claim_C3_rasterizer_coverage.1 ⟨0, 0, 0⟩ ⟨4, 0, 0⟩ ⟨0, 4, 0⟩ 1 1
      (by norm_num [signed_area2, edge_fn])⟩

/-- Claim C4: every fragment the rasterizer emits carries the
barycentric-weighted depth interpolation of the three vertex z values, and at
the centroid of a non-degenerate triangle the interpolated depth is the
arithmetic mean of the three vertex depths. -/
theorem claim_C4_depth_interpolation :
    (∀ v0 v1 v2 : Vec3 ℚ, ∀ f ∈ rasterize v0 v1 v2,
      f.depth = depth_at v0 v1 v2 f.x f.y) ∧
    (∀ v0 v1 v2 : Vec3 ℚ, signed_area2 v0 v1 v2 ≠ 0 →
      depth_at v0 v1 v2 ((v0.x + v1.x + v2.x) / 3) ((v0.y + v1.y + v2.y) / 3) =
        (v0.z + v1.z + v2.z) / 3) := by
  constructor
  · intro v0 v1 v2 f hf
    exact (mem_rasterize.mp hf).2.2.2.2.2.2.2.2
  · intro v0 v1 v2 ha
    unfold depth_at bary
    have e0 : edge_fn v1 v2 ((v0.x + v1.x + v2.x) / 3) ((v0.y + v1.y + v2.y) / 3) =
        signed_area2 v0 v1 v2 / 3 := by
      simp only [edge_fn, signed_area2]
      ring
    have e1 : edge_fn v2 v0 ((v0.x + v1.x + v2.x) / 3) ((v0.y + v1.y + v2.y) / 3) =
        signed_area2 v0 v1 v2 / 3 := by
      simp only [edge_fn, signed_area2]
      ring
    have e2 : edge_fn v0 v1 ((v0.x + v1.x + v2.x) / 3) ((v0.y + v1.y + v2.y) / 3) =
        signed_area2 v0 v1 v2 / 3 := by
      simp only [edge_fn, signed_area2]
      ring
    rw [e0, e1, e2]
    field_simp
    ring

/-- Witness for C4: centroid depth of the triangle with vertex depths 1, 2, 3
is their mean. -/
theorem claim_C4_depth_interpolation_witness :
    signed_area2 (⟨0, 0, 1⟩ : Vec3 ℚ) ⟨4, 0, 2⟩ ⟨0, 4, 3⟩ ≠ 0 ∧
    depth_at (⟨0, 0, 1⟩ : Vec3 ℚ) ⟨4, 0, 2⟩ ⟨0, 4, 3⟩
        (((⟨0, 0, 1⟩ : Vec3 ℚ).x + (⟨4, 0, 2⟩ : Vec3 ℚ).x + (⟨0, 4, 3⟩ : Vec3 ℚ).x) / 3)
        (((⟨0, 0, 1⟩ : Vec3 ℚ).y + (⟨4, 0, 2⟩ : Vec3 ℚ).y + (⟨0, 4, 3⟩ : Vec3 ℚ).y) / 3) =
      (((⟨0, 0, 1⟩ : Vec3 ℚ).z + (⟨4, 0, 2⟩ : Vec3 ℚ).z + (⟨0, 4, 3⟩ : Vec3 ℚ).z)) / 3 :=
  ⟨by norm_num [signed_area2, edge_fn],
    claim_C4_depth_interpolation.2 ⟨0, 0, 1⟩ ⟨4, 0, 2⟩ ⟨0, 4, 3⟩
      (by norm_num [signed_area2, edge_fn])⟩

/-- Claim C5: rasterization is total — it always returns a (finite) fragment
list — and a degenerate triangle (zero signed area, i.e. collinear vertices)
produces the empty fragment sequence. -/
theorem claim_C5_degenerate_empty (v0 v1 v2 : Vec3 ℚ)
    (h : signed_area2 v0 v1 v2 = 0) : rasterize v0 v1 v2 = [] := by
  unfold rasterize
  rw [if_pos h]

/-- Witness for C5: three collinear vertices yield no fragments. -/
theorem claim_C5_degenerate_empty_witness :
    signed_area2 (⟨0, 0, 0⟩ : Vec3 ℚ) ⟨1, 1, 0⟩ ⟨2, 2, 0⟩ = 0 ∧
    rasterize (⟨0, 0, 0⟩ : Vec3 ℚ) ⟨1, 1, 0⟩ ⟨2, 2, 0⟩ = [] :=
  ⟨by norm_num [signed_area2, edge_fn],
    claim_C5_degenerate_empty ⟨0, 0, 0⟩ ⟨1, 1, 0⟩ ⟨2, 2, 0⟩
      (by norm_num [signed_area2, edge_fn])⟩

/-- Modelled from the spec (the repository's `src/framebuffer.rs` is not in
`src/`): a fixed-size pixel grid (row-major color list) with a background
color.  All pixel writes are bounds-checked; out-of-range writes are no-ops. -/
structure Framebuffer where
  width : ℕ
  height : ℕ
  background : Vec3 ℚ
  data : List (Vec3 ℚ)
deriving DecidableEq, Repr

/-- Modelled from the spec: allocate a pixel grid with every pixel set to the
background state. -/
def Framebuffer.new (w h : ℕ) (bg : Vec3 ℚ) : Framebuffer :=
  ⟨w, h, bg, List.replicate (w * h) bg⟩

/-- Modelled from the spec: set the color used by `clear`. -/
def Framebuffer.set_background_color (fb : Framebuffer) (c : Vec3 ℚ) : Framebuffer :=
  { fb with background := c }

/-- Modelled from the spec: reset every pixel to the background color. -/
def Framebuffer.clear (fb : Framebuffer) : Framebuffer :=
  { fb with data := List.replicate (fb.width * fb.height) fb.background }

/-- Modelled from the spec: write `color` at (x, y) if in bounds, silently
ignored otherwise. -/
def Framebuffer.point (fb : Framebuffer) (x y : ℤ) (color : Vec3 ℚ) : Framebuffer :=
  if 0 ≤ x ∧ x < (fb.width : ℤ) ∧ 0 ≤ y ∧ y < (fb.height : ℤ) then
    { fb with data := fb.data.set (y * fb.width + x).toNat color }
  else fb

/-- Read the pixel at (x, y) (background color when out of range). -/
def Framebuffer.get_pixel (fb : Framebuffer) (x y : ℤ) : Vec3 ℚ :=
  fb.data.getD (y * fb.width + x).toNat fb.background

/-- Claim C6: out-of-bounds `point` calls leave the framebuffer unchanged and
never fail, and an in-bounds write at (0, 0) stores the color at (0, 0). -/
theorem claim_C6_point_bounds :
    (∀ (fb : Framebuffer) (x y : ℤ) (c : Vec3 ℚ),
      x < 0 ∨ (fb.width : ℤ) ≤ x ∨ y < 0 ∨ (fb.height : ℤ) ≤ y →
        fb.point x y c = fb) ∧
    (∀ (fb : Framebuffer) (c : Vec3 ℚ), 0 < fb.width → 0 < fb.height →
      fb.data.length = fb.width * fb.height →
        (fb.point 0 0 c).get_pixel 0 0 = c) := by
  constructor
  · intro fb x y c h
    unfold Framebuffer.point
    rw [if_neg]
    rintro ⟨h1, h2, h3, h4⟩
    rcases h with h | h | h | h <;> omega
  · intro fb c hw hh hlen
    unfold Framebuffer.point Framebuffer.get_pixel
    rw [if_pos ⟨le_refl 0, by exact_mod_cast hw, le_refl 0, by exact_mod_cast hh⟩]
    have hpos : 0 < fb.data.length := by
      rw [hlen]
      exact Nat.mul_pos hw hh
    rcases hd : fb.data with - | ⟨a, l⟩
    · rw [hd] at hpos
      simp at hpos
    · simp [hd]

/-- Witness for C6: on a 2x2 buffer, a write at (-1, 0) is a no-op and a
write at (0, 0) lands at pixel (0, 0). -/
theorem claim_C6_point_bounds_witness :
    (Framebuffer.new 2 2 ⟨0, 0, 0⟩).point (-1) 0 ⟨1, 1, 1⟩ = Framebuffer.new 2 2 ⟨0, 0, 0⟩ ∧
    ((Framebuffer.new 2 2 ⟨0, 0, 0⟩).point 0 0 ⟨1, 1, 1⟩).get_pixel 0 0 = ⟨1, 1, 1⟩ :=
  ⟨claim_C6_point_bounds.1 _ _ _ _ (Or.inl (by norm_num)),
   claim_C6_point_bounds.2 _ _ (by norm_num [Framebuffer.new]) (by norm_num [Framebuffer.new])
     (by simp [Framebuffer.new])⟩

/-- The fractional part of a rational, used by the procedural shaders. -/
def fract (q : ℚ) : ℚ := q - ⌊q⌋

/-- Modelled from the spec (the repository's `src/shaders.rs` is not in
`src/`): the star shader returns a bright emissive warm color, largely
independent of position. -/
def star_shader (_input : Vec3 ℚ) : Vec3 ℚ := ⟨1, 17 / 20, 2 / 5⟩

/-- Modelled from the spec: the rocky shader returns a mottled, noise-like
color varying with position. -/
def rocky_shader (input : Vec3 ℚ) : Vec3 ℚ :=
  let n := fract ((input.x * 1299 / 100 + input.y * 7823 / 100) * 4376 / 100)
  ⟨2 / 5 + 3 / 10 * n, 3 / 10 + 1 / 4 * n, 1 / 5 + 1 / 5 * n⟩

/-- Modelled from the spec: the gas shader returns banded color variation
along the y axis. -/
def gas_shader (input : Vec3 ℚ) : Vec3 ℚ :=
  let band := fract (input.y / 12)
  if band < 1 / 2 then ⟨4 / 5, 7 / 10, 1 / 2⟩ else ⟨3 / 5, 1 / 2, 2 / 5⟩

/-- Claim C7: each shader is a deterministic function of its input vector —
two calls with identical inputs return exactly equal colors. -/
theorem claim_C7_shader_determinism (u v : Vec3 ℚ) (h : u = v) :
    star_shader u = star_shader v ∧ rocky_shader u = rocky_shader v ∧
      gas_shader u = gas_shader v := by
  subst h
  exact ⟨rfl, rfl, rfl⟩

/-- Witness for C7: determinism at the concrete input (1, 2, 3). -/
theorem claim_C7_shader_determinism_witness :
    star_shader ⟨1, 2, 3⟩ = star_shader ⟨1, 2, 3⟩ ∧
    rocky_shader ⟨1, 2, 3⟩ = rocky_shader ⟨1, 2, 3⟩ ∧
    gas_shader ⟨1, 2, 3⟩ = gas_shader ⟨1, 2, 3⟩ :=
  claim_C7_shader_determinism ⟨1, 2, 3⟩ ⟨1, 2, 3⟩ rfl

/-- The per-draw-call uniforms of main.rs lines 21-23. -/
structure Uniforms where
  model_matrix : Matrix4 ℚ

/-- Modelled from the spec (the repository's `src/shaders.rs::vertex_shader`
is not in `src/`): apply the uniform's model matrix to the vertex position. -/
def vertex_shader (v : Vec3 ℚ) (u : Uniforms) : Vec3 ℚ :=
  transform_point u.model_matrix v

/-- The 3-at-a-time grouping of `transformed_vertices.chunks(3)` combined with
the `tri.len() < 3` skip of main.rs lines 80-83: trailing vertices that do not
form a complete triangle are dropped. -/
def chunk3 {α : Type} : List α → List (α × α × α)
  | a :: b :: c :: rest => (a, b, c) :: chunk3 rest
  | _ => []

/-- `render_with_shader` (main.rs lines 69-91): transform every vertex with
the vertex shader, group the results in threes, rasterize each complete
triangle, shade each fragment and write it into the framebuffer. -/
def render_with_shader (fb : Framebuffer) (u : Uniforms) (vertex_array : List (Vec3 ℚ))
    (shader_fn : Vec3 ℚ → Vec3 ℚ) : Framebuffer :=
  (chunk3 (vertex_array.map (fun v => vertex_shader v u))).foldl
    (fun fb0 tri =>
      (rasterize tri.1 tri.2.1 tri.2.2).foldl
        (fun fb1 frag =>
          fb1.point frag.x frag.y (shader_fn ⟨(frag.x : ℚ), (frag.y : ℚ), frag.depth⟩))
        fb0)
    fb

/-- Helper: lists shorter than three elements produce no triangle groups. -/
theorem chunk3_short {α : Type} : ∀ (e : List α), e.length < 3 → chunk3 e = []
  | [], _ => rfl
  | [_], _ => rfl
  | [_, _], _ => rfl
  | _ :: _ :: _ :: _, he => by
      rw [List.length_cons, List.length_cons, List.length_cons] at he
      omega

/-- Helper: appending fewer than three trailing elements to a list whose
length is a multiple of three does not change its triangle groups. -/
theorem chunk3_append {α : Type} : ∀ (l e : List α), l.length % 3 = 0 → e.length < 3 →
    chunk3 (l ++ e) = chunk3 l
  | [], e, _, he => by
      rw [List.nil_append]
      exact chunk3_short e he
  | [_], _, hl, _ => by simp at hl
  | [_, _], _, hl, _ => by simp at hl
  | a :: b :: c :: rest, e, hl, he => by
      have hr : rest.length % 3 = 0 := by
        simp [List.length_cons] at hl
        omega
      rw [List.cons_append, List.cons_append, List.cons_append]
      show (a, b, c) :: chunk3 (rest ++ e) = (a, b, c) :: chunk3 rest
      rw [chunk3_append rest e hr he]

/-- Claim C10: when the vertex array has one or two trailing vertices beyond
the last complete group of three, `render_with_shader` silently ignores them:
rendering the extended array equals rendering the complete groups alone. -/
theorem claim_C10_trailing_vertices_ignored (fb : Framebuffer) (u : Uniforms)
    (shader_fn : Vec3 ℚ → Vec3 ℚ) (l extra : List (Vec3 ℚ))
    (hl : l.length % 3 = 0) (he : extra.length < 3) :
    render_with_shader fb u (l ++ extra) shader_fn = render_with_shader fb u l shader_fn := by
  unfold render_with_shader
  rw [List.map_append, chunk3_append (l.map (fun v => vertex_shader v u))
    (extra.map (fun v => vertex_shader v u)) (by simpa using hl) (by simpa using he)]

/-- Witness for C10: one trailing vertex after a complete triangle changes
nothing. -/
theorem claim_C10_trailing_vertices_ignored_witness :
    ([⟨0, 0, 0⟩, ⟨3, 0, 0⟩, ⟨0, 3, 0⟩] : List (Vec3 ℚ)).length % 3 = 0 ∧
    ([⟨1, 1, 1⟩] : List (Vec3 ℚ)).length < 3 ∧
    render_with_shader (Framebuffer.new 5 5 ⟨0, 0, 0⟩) ⟨1⟩
        (([⟨0, 0, 0⟩, ⟨3, 0, 0⟩, ⟨0, 3, 0⟩] : List (Vec3 ℚ)) ++ [⟨1, 1, 1⟩]) star_shader =
      render_with_shader (Framebuffer.new 5 5 ⟨0, 0, 0⟩) ⟨1⟩
        ([⟨0, 0, 0⟩, ⟨3, 0, 0⟩, ⟨0, 3, 0⟩] : List (Vec3 ℚ)) star_shader :=
  ⟨rfl, by norm_num,
    claim_C10_trailing_vertices_ignored _ _ _ _ _ rfl (by norm_num)⟩

/-- The three bodies drawn by the render loop. -/
inductive Body where
  | sun
  | rocky
  | gas
deriving DecidableEq, Repr

/-- Observable events of one render-loop iteration. -/
inductive RenderEvent where
  | clear
  | draw (body : Body)
  | present
deriving DecidableEq, Repr

/-- `framebuffer.clear()` of main.rs line 159, with its event. -/
def clear_step (fb : Framebuffer) : Framebuffer × List RenderEvent :=
  (fb.clear, [RenderEvent.clear])

/-- One body's draw call (main.rs lines 162-180), with its event. -/
def draw_step (b : Body) (shader_fn : Vec3 ℚ → Vec3 ℚ) (m : Matrix4 ℚ)
    (vertex_array : List (Vec3 ℚ)) (fb : Framebuffer) : Framebuffer × List RenderEvent :=
  (render_with_shader fb ⟨m⟩ vertex_array shader_fn, [RenderEvent.draw b])

/-- `framebuffer.swap_buffers` of main.rs line 182: presentation hands the
buffer to the display collaborator, leaving it unchanged. -/
def present_step (fb : Framebuffer) : Framebuffer × List RenderEvent :=
  (fb, [RenderEvent.present])

/-- The render-loop body of main.rs lines 159-182: clear, draw the sun (scale
185·zoom, star shader), the rocky planet (25·zoom, rocky shader) and the gas
planet (60·zoom, gas shader), then present.  Body positions are computed by
the orchestrator before the frame (lines 146-157) and passed in; the camera
rotation's sines and cosines are parameters as in `create_model_matrix`. -/
def render_frame (vertex_array : List (Vec3 ℚ)) (sun_pos rocky_pos gas_pos : Vec3 ℚ)
    (zoom sx cx sy cy sz cz : ℚ) (fb : Framebuffer) : Framebuffer × List RenderEvent :=
  let s1 := clear_step fb
  let s2 := draw_step Body.sun star_shader
    (create_model_matrix sun_pos (185 * zoom) sx cx sy cy sz cz) vertex_array s1.1
  let s3 := draw_step Body.rocky rocky_shader
    (create_model_matrix rocky_pos (25 * zoom) sx cx sy cy sz cz) vertex_array s2.1
  let s4 := draw_step Body.gas gas_shader
    (create_model_matrix gas_pos (60 * zoom) sx cx sy cy sz cz) vertex_array s3.1
  let s5 := present_step s4.1
  (s5.1, s1.2 ++ s2.2 ++ s3.2 ++ s4.2 ++ s5.2)

/-- Claim C8: every frame first clears the framebuffer, then draws sun, rocky
planet and gas planet in that fixed order, then presents; consequently the
frame's resulting buffer never depends on the previous frame's pixel
contents (only on the buffer's dimensions and background color). -/
theorem claim_C8_frame_order :
    (∀ (vertex_array : List (Vec3 ℚ)) (sun_pos rocky_pos gas_pos : Vec3 ℚ)
        (zoom sx cx sy cy sz cz : ℚ) (fb : Framebuffer),
      (render_frame vertex_array sun_pos rocky_pos gas_pos zoom sx cx sy cy sz cz fb).2 =
        [RenderEvent.clear, RenderEvent.draw Body.sun, RenderEvent.draw Body.rocky,
         RenderEvent.draw Body.gas, RenderEvent.present]) ∧
    (∀ (vertex_array : List (Vec3 ℚ)) (sun_pos rocky_pos gas_pos : Vec3 ℚ)
        (zoom sx cx sy cy sz cz : ℚ) (fb fb' : Framebuffer),
      fb.width = fb'.width → fb.height = fb'.height → fb.background = fb'.background →
      (render_frame vertex_array sun_pos rocky_pos gas_pos zoom sx cx sy cy sz cz fb).1 =
        (render_frame vertex_array sun_pos rocky_pos gas_pos zoom sx cx sy cy sz cz fb').1) := by
  constructor
  · intro vertex_array sun_pos rocky_pos gas_pos zoom sx cx sy cy sz cz fb
    rfl
  · intro vertex_array sun_pos rocky_pos gas_pos zoom sx cx sy cy sz cz fb fb' hw hh hb
    have hclear : fb.clear = fb'.clear := by
      unfold Framebuffer.clear
      obtain ⟨w, h, bg, d⟩ := fb
      obtain ⟨w', h', bg', d'⟩ := fb'
      simp only at hw hh hb
      subst hw
      subst hh
      subst hb
      rfl
    unfold render_frame clear_step draw_step present_step
    simp only
    rw [hclear]

/-- Witness for C8: the frame trace on a small buffer, and independence from
the incoming pixel data for two buffers of equal shape. -/
theorem claim_C8_frame_order_witness :
    (render_frame [] ⟨0, 0, 0⟩ ⟨0, 0, 0⟩ ⟨0, 0, 0⟩ 1 0 1 0 1 0 1
        ⟨2, 2, ⟨0, 0, 0⟩, List.replicate 4 ⟨0, 0, 0⟩⟩).2 =
      [RenderEvent.clear, RenderEvent.draw Body.sun, RenderEvent.draw Body.rocky,
       RenderEvent.draw Body.gas, RenderEvent.present] ∧
    (render_frame [] ⟨0, 0, 0⟩ ⟨0, 0, 0⟩ ⟨0, 0, 0⟩ 1 0 1 0 1 0 1
        ⟨2, 2, ⟨0, 0, 0⟩, List.replicate 4 ⟨0, 0, 0⟩⟩).1 =
      (render_frame [] ⟨0, 0, 0⟩ ⟨0, 0, 0⟩ ⟨0, 0, 0⟩ 1 0 1 0 1 0 1
        ⟨2, 2, ⟨0, 0, 0⟩, List.replicate 4 ⟨1, 1, 1⟩⟩).1 :=
  ⟨claim_C8_frame_order.1 [] ⟨0, 0, 0⟩ ⟨0, 0, 0⟩ ⟨0, 0, 0⟩ 1 0 1 0 1 0 1 _,
   claim_C8_frame_order.2 [] ⟨0, 0, 0⟩ ⟨0, 0, 0⟩ ⟨0, 0, 0⟩ 1 0 1 0 1 0 1 _ _ rfl rfl rfl⟩
